import Mathlib

/-!
Verification of the Galois speculative for-each executor
(`libruntime/include/Galois/Runtime/Executor_ForEach.h`).

The executor's per-thread state, the commit/abort paths, the worker loops
and the abort handler with its escalation policies are embedded as
executable Lean definitions; side effects on the conflict context and the
worklist are recorded as an explicit event trace.
-/

namespace GaloisFE

/-- Compile-time configuration flags of `ForEachExecutor`, derived from the
operator's trait set (`needsStats`, `needsPush`, `needsAborts`, `needsPia`,
`needsBreak`). -/
structure Flags where
  needsStats : Bool
  needsPush : Bool
  needsAborts : Bool
  needsPia : Bool
  needsBreak : Bool
deriving DecidableEq, Repr

/-- Per-thread state of `ForEachExecutor::ThreadLocalData`: the three
statistics counters and the push buffer of `facing`. -/
structure TLD (α : Type) where
  stat_conflicts : Nat
  stat_iterations : Nat
  stat_pushes : Nat
  pushBuffer : List α
deriving DecidableEq, Repr

/-- Observable calls made by the executor on its collaborators: the
conflict context (`startIteration`, `commitIteration`, `cancelIteration`),
the worklist bulk push of the push buffer (`flush`), the abort handler
(`abortPush`) and the per-iteration allocator reset (`allocReset`). -/
inductive Ev (α : Type) where
  | ctxStart
  | ctxCommit
  | ctxCancel
  | flush (ps : List α)
  | abortPush (v : α)
  | allocReset
deriving DecidableEq, Repr

/-- `ForEachExecutor::commitIteration`: when `needsPush` holds and the push
buffer is non-empty, add its size to `stat_pushes`, bulk-push it to the
worklist and clear it; then reset the allocator when `needsPia`; then
release the iteration via `ctx.commitIteration()` when `needsAborts`. -/
def commitIteration (fl : Flags) (tld : TLD α) : TLD α × List (Ev α) :=
  if fl.needsPush && !tld.pushBuffer.isEmpty then
    ({ tld with
        stat_pushes := tld.stat_pushes + tld.pushBuffer.length,
        pushBuffer := [] },
     Ev.flush tld.pushBuffer ::
       ((if fl.needsPia then [Ev.allocReset] else []) ++
        (if fl.needsAborts then [Ev.ctxCommit] else [])))
  else
    (tld,
     (if fl.needsPia then [Ev.allocReset] else []) ++
     (if fl.needsAborts then [Ev.ctxCommit] else []))

/-- `ForEachExecutor::abortIteration`: `ctx.cancelIteration()`, increment
`stat_conflicts`, push the popped item to the abort handler, clear the push
buffer when `needsPush`, reset the allocator when `needsPia`. -/
def abortIteration (fl : Flags) (v : α) (tld : TLD α) : TLD α × List (Ev α) :=
  ({ tld with
      stat_conflicts := tld.stat_conflicts + 1,
      pushBuffer := if fl.needsPush then [] else tld.pushBuffer },
   Ev.ctxCancel :: Ev.abortPush v ::
     (if fl.needsPia then [Ev.allocReset] else []))

/-- Result of one `doProcess` call: the new thread-local state, the emitted
events, the operator's effect, and whether the operator raised a conflict
signal (a thrown `ConflictFlag`). -/
structure StepRes (α β : Type) where
  tld : TLD α
  evs : List (Ev α)
  eff : β
  confl : Bool
deriving Repr

/-- `ForEachExecutor::doProcess`: `ctx.startIteration()` when `needsAborts`,
increment `stat_iterations`, run the operator (which stages pushes into the
push buffer and may raise a conflict), and on normal return run
`commitIteration`. The operator is modelled as a function returning its
effect, its staged pushes, and a conflict flag. -/
def doProcess (fl : Flags) (op : α → β × List α × Bool) (v : α) (tld : TLD α) :
    StepRes α β :=
  let startEvs : List (Ev α) := if fl.needsAborts then [Ev.ctxStart] else []
  let tld1 : TLD α :=
    { tld with
        stat_iterations := tld.stat_iterations + 1,
        pushBuffer := tld.pushBuffer ++ (op v).2.1 }
  if (op v).2.2 then
    ⟨tld1, startEvs, (op v).1, true⟩
  else
    ⟨(commitIteration fl tld1).1, startEvs ++ (commitIteration fl tld1).2,
     (op v).1, false⟩

/-- Items bulk-pushed to the worklist by the events of a step (the payloads
of the `flush` events, in order). -/
def evFlushes : List (Ev α) → List α
  | [] => []
  | Ev.flush ps :: rest => ps ++ evFlushes rest
  | _ :: rest => evFlushes rest

/-- Result of one `runQueue` call: the final thread-local state, the
remaining worklist, and the emitted events. -/
structure RunRes (α : Type) where
  tld : TLD α
  wl : List α
  evs : List (Ev α)
deriving Repr

/-- `ForEachExecutor::runQueue`: pop and process items while the pop count
is under `limit` (`limit = 0` means unlimited); the `try` block wraps the
whole loop, so the first conflict runs `abortIteration` on the popped item
and the call returns. Items flushed by a commit re-enter the worklist.
`fuel` bounds the recursion (pushes may re-grow the list). -/
def runQueue (fl : Flags) (op : α → β × List α × Bool) (limit : Nat) :
    Nat → List α → Nat → TLD α → RunRes α
  | 0, wl, _, tld => ⟨tld, wl, []⟩
  | _ + 1, [], _, tld => ⟨tld, [], []⟩
  | fuel + 1, v :: rest, num, tld =>
    if limit = 0 ∨ num < limit then
      let r := doProcess fl op v tld
      if r.confl then
        ⟨(abortIteration fl v r.tld).1, rest, r.evs ++ (abortIteration fl v r.tld).2⟩
      else
        let s := runQueue fl op limit fuel (rest ++ evFlushes r.evs) (num + 1) r.tld
        ⟨s.tld, s.wl, r.evs ++ s.evs⟩
    else ⟨tld, v :: rest, []⟩

/-- `ForEachExecutor::runQueueSimple`: pop and process every item with no
try/catch; used on the no-abort path, where the operator cannot raise a
conflict, so the operator is modelled as effect plus staged pushes.
Returns `none` on fuel exhaustion. -/
def runQueueSimple (fl : Flags) (op : α → β × List α) :
    Nat → List α → TLD α → Option (TLD α × List β)
  | _, [], tld => some (tld, [])
  | 0, _ :: _, _ => none
  | fuel + 1, v :: rest, tld =>
    let r := doProcess fl (fun w => ((op w).1, (op w).2, false)) v tld
    match runQueueSimple fl op fuel (rest ++ evFlushes r.evs) r.tld with
    | none => none
    | some (tld', es) => some (tld', r.eff :: es)

/-- Spec-side definition for the refinement claim, following the spec's
words: a sequential loop over the range applied in pop order — take the
first item, apply the operator, record its effect, and append its pushes
to the end of the remaining range. -/
def seqLoopSpec (op : α → β × List α) : Nat → List α → Option (List β)
  | _, [] => some []
  | 0, _ :: _ => none
  | fuel + 1, v :: rest =>
    match seqLoopSpec op fuel (rest ++ (op v).2) with
    | none => none
    | some es => some ((op v).1 :: es)

/-- `ForEachExecutor::checkEmpty`: when the worklist provides an `empty()`
member its result is used (`some b`); the variadic fallback overload
returns `true` (`none`). -/
def checkEmpty : Option Bool → Bool
  | none => true
  | some b => b

/-- Events of the outer loop of `go()` that are not item processing:
re-arming the termination detector and waiting at the barrier. -/
inductive GoEv where
  | initThread
  | barrierWait
deriving DecidableEq, Repr

/-- The loop structure of `ForEachExecutor::go`: the inner do-while runs
until `globalTermination()` holds or (`needsBreak` and `broke`); then the
outer check exits when `checkEmpty` (or the break flag) holds, and
otherwise re-arms the termination detector and waits at the barrier before
re-entering the inner loop. `gt k` and `brk k` are the oracle values of
`globalTermination()` and `broke` at the k-th inner check; `emp r` is the
`empty()` hint at the r-th outer check. Returns the final check index, the
round count and the event trace, or `none` on fuel exhaustion. -/
def goLoop (nb : Bool) (gt brk : Nat → Bool) (emp : Nat → Option Bool) :
    Nat → Nat → Nat → List GoEv → Option (Nat × Nat × List GoEv)
  | 0, _, _, _ => none
  | fuel + 1, k, r, tr =>
    if gt k || (nb && brk k) then
      if checkEmpty (emp r) || (nb && brk k) then
        some (k, r, tr)
      else
        goLoop nb gt brk emp fuel (k + 1) (r + 1)
          (tr ++ [GoEv.initThread, GoEv.barrierWait])
    else
      goLoop nb gt brk emp fuel (k + 1) r tr

/-- Number of occurrences of an outer-loop event in a trace. -/
def countEv (e : GoEv) : List GoEv → Nat
  | [] => 0
  | x :: rest => (if x = e then 1 else 0) + countEv e rest

/-- `ForEachExecutor::operator()`: `couldAbort = needsAborts &&
activeThreads > 1`. -/
def couldAbort (needsAborts : Bool) (activeThreads : Nat) : Bool :=
  needsAborts && decide (1 < activeThreads)

/-- The inner-loop body dispatch of `go()`: with `couldAbort || needsBreak`
it runs `runQueue` with `__NUM = (needsBreak || isLeader) ? 64 : 0` and
then drains the aborted queue when `couldAbort`; otherwise it runs
`runQueueSimple` with no try/catch. -/
inductive InnerLoop where
  | catching (limit : Nat) (drainAborts : Bool)
  | simple
deriving DecidableEq, Repr

/-- Which inner loop the body of `go()` runs, and with which pop limit. -/
def innerLoopOf (ca nb isLeader : Bool) : InnerLoop :=
  if ca || nb then
    InnerLoop.catching (if nb || isLeader then 64 else 0) ca
  else
    InnerLoop.simple

/-- `AbortHandler::Item`: a work item together with its retry count
(a C++ `int`). -/
structure Item (α : Type) where
  val : α
  retries : Int
deriving DecidableEq, Repr

/-- The topology facts the abort handler reads from the thread pool: the
calling thread's id, its package, its package leader, the package count,
and the leader of each package. -/
structure ThreadInfo where
  tid : Nat
  package : Nat
  leader : Nat
  maxPackages : Nat
  leaderForPackage : Nat → Nat

/-- `AbortHandler`: one FIFO of aborted items per thread, plus the policy
flag chosen at construction. -/
structure AbortHandler (α : Type) where
  queues : Nat → List (Item α)
  useBasicPolicy : Bool

/-- Push an item onto the queue of thread `i` (FIFO: append at the tail). -/
def AbortHandler.pushTo (ah : AbortHandler α) (i : Nat) (it : Item α) :
    AbortHandler α :=
  { ah with queues := fun j => if j = i then ah.queues j ++ [it] else ah.queues j }

/-- `AbortHandler::basicPolicy`: push to the queue of the leader of package
`package / 2`. -/
def basicPolicy (ti : ThreadInfo) (ah : AbortHandler α) (it : Item α) :
    AbortHandler α :=
  ah.pushTo (ti.leaderForPackage (ti.package / 2)) it

/-- `AbortHandler::doublePolicy`: with `retries = item.retries - 1`, when
`retries` is odd push locally; otherwise push half-way toward the package
leader, or, at the leader, to the leader of package `package / 2`. -/
def doublePolicy (ti : ThreadInfo) (ah : AbortHandler α) (it : Item α) :
    AbortHandler α :=
  if (it.retries - 1) % 2 = 1 then
    ah.pushTo ti.tid it
  else if ti.tid ≠ ti.leader then
    ah.pushTo (ti.leader + (ti.tid - ti.leader) / 2) it
  else
    ah.pushTo (ti.leaderForPackage (ti.package / 2)) it

/-- `AbortHandler::AbortHandler`: empty queues;
`useBasicPolicy = getThreadPool().getMaxPackages() > 2`. -/
def mkAbortHandler (ti : ThreadInfo) : AbortHandler α :=
  { queues := fun _ => [], useBasicPolicy := decide (2 < ti.maxPackages) }

/-- `AbortHandler::push(const value_type&)` (first abort of a value): build
`Item { val, 1 }` and push it onto the calling thread's own queue. -/
def pushValue (ti : ThreadInfo) (ah : AbortHandler α) (v : α) : AbortHandler α :=
  ah.pushTo ti.tid ⟨v, 1⟩

/-- `AbortHandler::push(const Item&)` (repeated abort): build a new item
with `retries + 1` and route it through the selected escalation policy. -/
def pushItem (ti : ThreadInfo) (ah : AbortHandler α) (it : Item α) :
    AbortHandler α :=
  if ah.useBasicPolicy then basicPolicy ti ah ⟨it.val, it.retries + 1⟩
  else doublePolicy ti ah ⟨it.val, it.retries + 1⟩

/-- The four aggregates reported by `~ThreadLocalData` when `needsStats`
holds. -/
structure Stats4 where
  conflicts : Nat
  commits : Nat
  pushes : Nat
  iterations : Nat
deriving DecidableEq, Repr

/-- `ThreadLocalData::~ThreadLocalData`: when `needsStats` holds, report
Conflicts, Commits (computed as `stat_iterations - stat_conflicts`),
Pushes and Iterations; otherwise report nothing. -/
def reportStats (fl : Flags) (tld : TLD α) : Option Stats4 :=
  if fl.needsStats then
    some ⟨tld.stat_conflicts, tld.stat_iterations - tld.stat_conflicts,
          tld.stat_pushes, tld.stat_iterations⟩
  else none

/-! Helper lemmas about the commit and abort paths. -/

theorem commitIteration_stat_conflicts (fl : Flags) (tld : TLD α) :
    (commitIteration fl tld).1.stat_conflicts = tld.stat_conflicts := by
  unfold commitIteration; split <;> rfl

theorem commitIteration_stat_iterations (fl : Flags) (tld : TLD α) :
    (commitIteration fl tld).1.stat_iterations = tld.stat_iterations := by
  unfold commitIteration; split <;> rfl

theorem doProcess_confl (fl : Flags) (op : α → β × List α × Bool) (v : α)
    (tld : TLD α) (hc : (op v).2.2 = true) :
    doProcess fl op v tld =
      ⟨{ tld with
          stat_iterations := tld.stat_iterations + 1,
          pushBuffer := tld.pushBuffer ++ (op v).2.1 },
        if fl.needsAborts then [Ev.ctxStart] else [], (op v).1, true⟩ := by
  simp [doProcess, hc]

theorem doProcess_stat_conflicts (fl : Flags) (op : α → β × List α × Bool)
    (v : α) (tld : TLD α) :
    (doProcess fl op v tld).tld.stat_conflicts = tld.stat_conflicts := by
  by_cases h : (op v).2.2 = true
  · simp [doProcess, h]
  · simp [doProcess, h, commitIteration_stat_conflicts]

theorem doProcess_stat_iterations (fl : Flags) (op : α → β × List α × Bool)
    (v : α) (tld : TLD α) :
    (doProcess fl op v tld).tld.stat_iterations = tld.stat_iterations + 1 := by
  by_cases h : (op v).2.2 = true
  · simp [doProcess, h]
  · simp [doProcess, h, commitIteration_stat_iterations]

/-- Claim C1: for every iteration whose operator raises a conflict signal
(caught as `ConflictFlag` in `runQueue`), the executor calls
`cancelIteration` on the thread's conflict context, increments the
conflicts counter by one, pushes the popped item to the abort handler, and,
when `needsPush` holds, clears the push buffer, so that items staged by the
aborted iteration are discarded and never flushed to the worklist. -/
theorem runQueue_conflict_abort_path (fl : Flags) (op : α → β × List α × Bool)
    (limit fuel num : Nat) (v : α) (rest : List α) (tld : TLD α)
    (hA : fl.needsAborts = true) (hc : (op v).2.2 = true)
    (hlim : limit = 0 ∨ num < limit) :
    (runQueue fl op limit (fuel + 1) (v :: rest) num tld).tld.stat_conflicts
        = tld.stat_conflicts + 1
    ∧ Ev.ctxCancel ∈ (runQueue fl op limit (fuel + 1) (v :: rest) num tld).evs
    ∧ Ev.abortPush v ∈ (runQueue fl op limit (fuel + 1) (v :: rest) num tld).evs
    ∧ (fl.needsPush = true →
        (runQueue fl op limit (fuel + 1) (v :: rest) num tld).tld.pushBuffer = [])
    ∧ (runQueue fl op limit (fuel + 1) (v :: rest) num tld).wl = rest
    ∧ ∀ ps, Ev.flush ps ∉ (runQueue fl op limit (fuel + 1) (v :: rest) num tld).evs := by
  have hq : runQueue fl op limit (fuel + 1) (v :: rest) num tld =
      ⟨(abortIteration fl v (doProcess fl op v tld).tld).1, rest,
        (doProcess fl op v tld).evs ++ (abortIteration fl v (doProcess fl op v tld).tld).2⟩ := by
    rw [runQueue, if_pos hlim]
    simp [doProcess_confl fl op v tld hc]
  rw [hq]
  refine ⟨?_, ?_, ?_, ?_, rfl, ?_⟩
  · show (abortIteration fl v (doProcess fl op v tld).tld).1.stat_conflicts = _
    simp [abortIteration, doProcess_stat_conflicts]
  · simp [abortIteration]
  · simp [abortIteration]
  · intro hP
    simp [abortIteration, hP]
  · intro ps
    rw [doProcess_confl fl op v tld hc]
    simp [abortIteration, hA]

/-- Witness for C1 at a concrete conflicting operator. -/
theorem runQueue_conflict_abort_path_witness :
    (runQueue ⟨true, true, true, false, false⟩
        (fun v : Nat => ((), [v + 1], true)) 0 1 [7, 8] 0 ⟨0, 0, 0, []⟩).tld.stat_conflicts
        = 0 + 1
    ∧ Ev.ctxCancel ∈ (runQueue ⟨true, true, true, false, false⟩
        (fun v : Nat => ((), [v + 1], true)) 0 1 [7, 8] 0 ⟨0, 0, 0, []⟩).evs
    ∧ Ev.abortPush 7 ∈ (runQueue ⟨true, true, true, false, false⟩
        (fun v : Nat => ((), [v + 1], true)) 0 1 [7, 8] 0 ⟨0, 0, 0, []⟩).evs
    ∧ (true = true →
        (runQueue ⟨true, true, true, false, false⟩
          (fun v : Nat => ((), [v + 1], true)) 0 1 [7, 8] 0 ⟨0, 0, 0, []⟩).tld.pushBuffer = [])
    ∧ (runQueue ⟨true, true, true, false, false⟩
        (fun v : Nat => ((), [v + 1], true)) 0 1 [7, 8] 0 ⟨0, 0, 0, []⟩).wl = [8]
    ∧ ∀ ps, Ev.flush ps ∉ (runQueue ⟨true, true, true, false, false⟩
        (fun v : Nat => ((), [v + 1], true)) 0 1 [7, 8] 0 ⟨0, 0, 0, []⟩).evs :=
  runQueue_conflict_abort_path ⟨true, true, true, false, false⟩
    (fun v : Nat => ((), [v + 1], true)) 0 0 0 7 [8] ⟨0, 0, 0, []⟩
    rfl rfl (Or.inl rfl)

/-- Claim C2: in `commitIteration`, when `needsPush` and `needsAborts` both
hold and the push buffer is non-empty, the buffer is flushed to the
worklist (pushes counter increased by the buffer size, buffer cleared)
strictly before the conflict context releases the iteration's locks via
`ctx.commitIteration`; when the buffer is empty the flush is skipped
entirely. -/
theorem commitIteration_flush_before_release (fl : Flags) (tld : TLD α)
    (hP : fl.needsPush = true) (hA : fl.needsAborts = true) :
    (tld.pushBuffer ≠ [] →
      (commitIteration fl tld).1.stat_pushes
          = tld.stat_pushes + tld.pushBuffer.length
      ∧ (commitIteration fl tld).1.pushBuffer = []
      ∧ ∃ l, (commitIteration fl tld).2 = Ev.flush tld.pushBuffer :: l
          ∧ Ev.ctxCommit ∈ l)
    ∧ (tld.pushBuffer = [] →
      (commitIteration fl tld).1 = tld
      ∧ ∀ ps, Ev.flush ps ∉ (commitIteration fl tld).2) := by
  constructor
  · intro hne
    have hcond : (fl.needsPush && !tld.pushBuffer.isEmpty) = true := by
      simp [hP, hne]
    rw [commitIteration, if_pos hcond]
    refine ⟨rfl, rfl, ⟨_, rfl, ?_⟩⟩
    simp [hA]
  · intro hemp
    have hcond : ¬ (fl.needsPush && !tld.pushBuffer.isEmpty) = true := by
      simp [hemp]
    rw [commitIteration, if_neg hcond]
    refine ⟨rfl, ?_⟩
    intro ps
    simp [hA]

/-- Witness for C2 at a concrete non-empty and a concrete empty buffer. -/
theorem commitIteration_flush_before_release_witness :
    (([5] : List Nat) ≠ [] →
      (commitIteration ⟨true, true, true, false, false⟩
          (⟨0, 0, 0, [5]⟩ : TLD Nat)).1.stat_pushes = 0 + [5].length
      ∧ (commitIteration ⟨true, true, true, false, false⟩
          (⟨0, 0, 0, [5]⟩ : TLD Nat)).1.pushBuffer = []
      ∧ ∃ l, (commitIteration ⟨true, true, true, false, false⟩
          (⟨0, 0, 0, [5]⟩ : TLD Nat)).2 = Ev.flush [5] :: l ∧ Ev.ctxCommit ∈ l)
    ∧ (([5] : List Nat) = [] →
      (commitIteration ⟨true, true, true, false, false⟩
          (⟨0, 0, 0, [5]⟩ : TLD Nat)).1 = ⟨0, 0, 0, [5]⟩
      ∧ ∀ ps, Ev.flush ps ∉ (commitIteration ⟨true, true, true, false, false⟩
          (⟨0, 0, 0, [5]⟩ : TLD Nat)).2) :=
  commitIteration_flush_before_release ⟨true, true, true, false, false⟩
    (⟨0, 0, 0, [5]⟩ : TLD Nat) rfl rfl

theorem countEv_append (e : GoEv) (l1 l2 : List GoEv) :
    countEv e (l1 ++ l2) = countEv e l1 + countEv e l2 := by
  induction l1 with
  | nil => simp [countEv]
  | cons x rest ih => simp [countEv, ih]; omega

/-- Claim C3: a worker exits the outer loop of `go()` only when, after
`globalTermination()` has returned true (or break was requested), the
worklist reports empty (or provides no `empty()` hint, in which case the
hint defaults to true) or the break flag is set; otherwise the worker
re-initializes its termination state and waits at the barrier before
re-entering the inner loop (each extra round contributes exactly one
`initThread` and one `barrierWait` event), so a single worker finishing
early never terminates the group by itself. -/
theorem go_outer_loop_exit (nb : Bool) (gt brk : Nat → Bool)
    (emp : Nat → Option Bool) :
    ∀ (fuel k0 r0 : Nat) (tr0 : List GoEv) (k r : Nat) (tr : List GoEv),
      goLoop nb gt brk emp fuel k0 r0 tr0 = some (k, r, tr) →
      (gt k || (nb && brk k)) = true
      ∧ (checkEmpty (emp r) || (nb && brk k)) = true
      ∧ r0 ≤ r
      ∧ countEv GoEv.initThread tr = countEv GoEv.initThread tr0 + (r - r0)
      ∧ countEv GoEv.barrierWait tr = countEv GoEv.barrierWait tr0 + (r - r0) := by
  intro fuel
  induction fuel with
  | zero =>
    intro k0 r0 tr0 k r tr h
    simp [goLoop] at h
  | succ n ih =>
    intro k0 r0 tr0 k r tr h
    rw [goLoop] at h
    by_cases h1 : (gt k0 || (nb && brk k0)) = true
    · rw [if_pos h1] at h
      by_cases h2 : (checkEmpty (emp r0) || (nb && brk k0)) = true
      · rw [if_pos h2] at h
        obtain ⟨hk, hr, htr⟩ : k0 = k ∧ r0 = r ∧ tr0 = tr := by
          simpa using h
        subst hk; subst hr; subst htr
        exact ⟨h1, h2, le_refl _, by omega, by omega⟩
      · rw [if_neg h2] at h
        obtain ⟨c1, c2, hr, ci, cb⟩ :=
          ih (k0 + 1) (r0 + 1) (tr0 ++ [GoEv.initThread, GoEv.barrierWait]) k r tr h
        rw [countEv_append] at ci cb
        refine ⟨c1, c2, by omega, ?_, ?_⟩
        · rw [ci]; simp [countEv]; omega
        · rw [cb]; simp [countEv]; omega
    · rw [if_neg h1] at h
      exact ih (k0 + 1) r0 tr0 k r tr h

/-- Witness for C3: with `globalTermination` immediately true and no
`empty()` member (hint defaults to true), the loop exits at the first
check with no barrier round. -/
theorem go_outer_loop_exit_witness :
    ((fun _ : Nat => true) 0 || (false && (fun _ : Nat => false) 0)) = true
    ∧ (checkEmpty ((fun _ : Nat => none) 0) || (false && (fun _ : Nat => false) 0)) = true
    ∧ 0 ≤ 0
    ∧ countEv GoEv.initThread [] = countEv GoEv.initThread [] + (0 - 0)
    ∧ countEv GoEv.barrierWait [] = countEv GoEv.barrierWait [] + (0 - 0) :=
  go_outer_loop_exit false (fun _ => true) (fun _ => false) (fun _ => none)
    1 0 0 [] 0 0 [] rfl

theorem abortIteration_stat_conflicts (fl : Flags) (v : α) (tld : TLD α) :
    (abortIteration fl v tld).1.stat_conflicts = tld.stat_conflicts + 1 := rfl

theorem abortIteration_stat_iterations (fl : Flags) (v : α) (tld : TLD α) :
    (abortIteration fl v tld).1.stat_iterations = tld.stat_iterations := rfl

theorem runQueue_conflicts_le (fl : Flags) (op : α → β × List α × Bool)
    (limit : Nat) :
    ∀ (fuel : Nat) (wl : List α) (num : Nat) (tld : TLD α),
      tld.stat_conflicts ≤ tld.stat_iterations →
      (runQueue fl op limit fuel wl num tld).tld.stat_conflicts
        ≤ (runQueue fl op limit fuel wl num tld).tld.stat_iterations := by
  intro fuel
  induction fuel with
  | zero =>
    intro wl num tld h
    simpa [runQueue] using h
  | succ n ih =>
    intro wl num tld h
    cases wl with
    | nil => simpa [runQueue] using h
    | cons v rest =>
      rw [runQueue]
      by_cases hl : limit = 0 ∨ num < limit
      · rw [if_pos hl]
        dsimp only
        by_cases hc : (doProcess fl op v tld).confl = true
        · rw [if_pos hc]
          dsimp only
          rw [abortIteration_stat_conflicts, abortIteration_stat_iterations,
            doProcess_stat_conflicts, doProcess_stat_iterations]
          omega
        · rw [if_neg hc]
          dsimp only
          refine ih _ _ _ ?_
          rw [doProcess_stat_conflicts, doProcess_stat_iterations]
          omega
      · rw [if_neg hl]
        exact h

/-- Claim C10: at every point of a thread's execution
`stat_conflicts ≤ stat_iterations`: `doProcess` increments the iterations
counter (and leaves conflicts alone) before the operator can conflict,
`abortIteration` increments conflicts by exactly one (leaving iterations
alone), and `runQueue` preserves the inequality from any state satisfying
it — hence the reported Commits value (`Iterations − Conflicts`) never
underflows. -/
theorem stat_conflicts_le_stat_iterations {α β : Type} :
    (∀ (fl : Flags) (op : α → β × List α × Bool) (v : α) (tld : TLD α),
        (doProcess fl op v tld).tld.stat_iterations = tld.stat_iterations + 1
        ∧ (doProcess fl op v tld).tld.stat_conflicts = tld.stat_conflicts)
    ∧ (∀ (fl : Flags) (v : α) (tld : TLD α),
        (abortIteration fl v tld).1.stat_conflicts = tld.stat_conflicts + 1
        ∧ (abortIteration fl v tld).1.stat_iterations = tld.stat_iterations)
    ∧ (∀ (fl : Flags) (op : α → β × List α × Bool) (limit fuel : Nat)
        (wl : List α) (num : Nat) (tld : TLD α),
        tld.stat_conflicts ≤ tld.stat_iterations →
        (runQueue fl op limit fuel wl num tld).tld.stat_conflicts
          ≤ (runQueue fl op limit fuel wl num tld).tld.stat_iterations) := by
  refine ⟨?_, ?_, ?_⟩
  · intro fl op v tld
    exact ⟨doProcess_stat_iterations fl op v tld, doProcess_stat_conflicts fl op v tld⟩
  · intro fl v tld
    exact ⟨rfl, rfl⟩
  · intro fl op limit fuel wl num tld h
    exact runQueue_conflicts_le fl op limit fuel wl num tld h

/-- Witness for C10 at a concrete run with one conflicting iteration. -/
theorem stat_conflicts_le_stat_iterations_witness :
    (runQueue ⟨true, true, true, false, false⟩
        (fun v : Nat => ((), [], v = 1)) 0 3 [0, 1, 2] 0 ⟨0, 0, 0, []⟩).tld.stat_conflicts
      ≤ (runQueue ⟨true, true, true, false, false⟩
        (fun v : Nat => ((), [], v = 1)) 0 3 [0, 1, 2] 0 ⟨0, 0, 0, []⟩).tld.stat_iterations :=
  (@stat_conflicts_le_stat_iterations Nat Unit).2.2
    ⟨true, true, true, false, false⟩ (fun v : Nat => ((), [], v = 1))
    0 3 [0, 1, 2] 0 ⟨0, 0, 0, []⟩ (Nat.le_refl 0)

/-- Claim C4: for every thread with `needsStats` enabled, the four
aggregates reported at teardown satisfy `Commits = Iterations − Conflicts`,
i.e. `iterations = commits + conflicts`, for any state reachable by
`runQueue` from a state where conflicts do not exceed iterations. -/
theorem teardown_stats_commits (fl : Flags) (op : α → β × List α × Bool)
    (limit fuel : Nat) (wl : List α) (num : Nat) (tld : TLD α)
    (hS : fl.needsStats = true)
    (h0 : tld.stat_conflicts ≤ tld.stat_iterations) :
    ∃ s : Stats4,
      reportStats fl (runQueue fl op limit fuel wl num tld).tld = some s
      ∧ s.iterations = s.commits + s.conflicts
      ∧ s.commits = s.iterations - s.conflicts := by
  have hle := runQueue_conflicts_le fl op limit fuel wl num tld h0
  refine ⟨⟨(runQueue fl op limit fuel wl num tld).tld.stat_conflicts,
      (runQueue fl op limit fuel wl num tld).tld.stat_iterations
        - (runQueue fl op limit fuel wl num tld).tld.stat_conflicts,
      (runQueue fl op limit fuel wl num tld).tld.stat_pushes,
      (runQueue fl op limit fuel wl num tld).tld.stat_iterations⟩, ?_, ?_, rfl⟩
  · simp [reportStats, hS]
  · exact (Nat.sub_add_cancel hle).symm

/-- Witness for C4 at a concrete run with one conflicting iteration. -/
theorem teardown_stats_commits_witness :
    ∃ s : Stats4,
      reportStats ⟨true, true, true, false, false⟩
        (runQueue ⟨true, true, true, false, false⟩
          (fun v : Nat => ((), [], v = 1)) 0 3 [0, 1, 2] 0 ⟨0, 0, 0, []⟩).tld = some s
      ∧ s.iterations = s.commits + s.conflicts
      ∧ s.commits = s.iterations - s.conflicts :=
  teardown_stats_commits ⟨true, true, true, false, false⟩
    (fun v : Nat => ((), [], v = 1)) 0 3 [0, 1, 2] 0 ⟨0, 0, 0, []⟩
    rfl (Nat.le_refl 0)

theorem mem_pushTo (ah : AbortHandler α) (i j : Nat) (it x : Item α)
    (hx : x ∈ (ah.pushTo i it).queues j) : x ∈ ah.queues j ∨ x = it := by
  unfold AbortHandler.pushTo at hx
  dsimp only at hx
  by_cases hj : j = i
  · rw [if_pos hj] at hx
    rcases List.mem_append.1 hx with h | h
    · exact Or.inl h
    · simp at h
      exact Or.inr h
  · rw [if_neg hj] at hx
    exact Or.inl hx

theorem pushItem_eq_pushTo (ti : ThreadInfo) (ah : AbortHandler α)
    (it : Item α) :
    ∃ d, pushItem ti ah it = ah.pushTo d ⟨it.val, it.retries + 1⟩ := by
  unfold pushItem basicPolicy doublePolicy
  split
  · exact ⟨_, rfl⟩
  · split
    · exact ⟨_, rfl⟩
    · split
      · exact ⟨_, rfl⟩
      · exact ⟨_, rfl⟩

/-- Counterexample to claim C5 as stated: on a topology with 3 (> 2)
packages the constructor sets `useBasicPolicy` and a re-pushed item is
routed by the basic policy (to the leader of package `p / 2`, here
queue 0), not by the double policy (which, for this item, would push to
the local queue 3); the claim's selection condition is inverted. -/
theorem abortHandler_policy_selection_cex :
    2 < (⟨3, 1, 2, 3, fun p => p⟩ : ThreadInfo).maxPackages
    ∧ (mkAbortHandler ⟨3, 1, 2, 3, fun p => p⟩ : AbortHandler Nat).useBasicPolicy = true
    ∧ (pushItem ⟨3, 1, 2, 3, fun p => p⟩
        (mkAbortHandler ⟨3, 1, 2, 3, fun p => p⟩) (⟨0, 1⟩ : Item Nat)).queues 0
        = [⟨0, 2⟩]
    ∧ (pushItem ⟨3, 1, 2, 3, fun p => p⟩
        (mkAbortHandler ⟨3, 1, 2, 3, fun p => p⟩) (⟨0, 1⟩ : Item Nat)).queues 3
        = []
    ∧ (doublePolicy ⟨3, 1, 2, 3, fun p => p⟩
        (mkAbortHandler ⟨3, 1, 2, 3, fun p => p⟩) (⟨0, 2⟩ : Item Nat)).queues 3
        = [⟨0, 2⟩] := by
  refine ⟨by decide, rfl, by decide, by decide, by decide⟩

/-- Claim C5 (amended): the escalation policy is chosen once at
construction from the package topology, with the selection condition the
reverse of the claimed one: the basic policy (push to the leader of
package `p / 2`) is selected when the thread pool reports more than 2
packages, and the double policy (push to the local queue when the updated
retry count minus one is odd; otherwise half-way toward the package
leader, or, at the leader, climbing packages) is selected when it reports
at most 2 packages. -/
theorem abortHandler_policy_selection (ti : ThreadInfo) (ah : AbortHandler α)
    (it : Item α)
    (hsel : ah.useBasicPolicy = (mkAbortHandler ti : AbortHandler α).useBasicPolicy) :
    (ah.useBasicPolicy = true ↔ 2 < ti.maxPackages)
    ∧ (2 < ti.maxPackages →
        pushItem ti ah it = basicPolicy ti ah ⟨it.val, it.retries + 1⟩)
    ∧ (ti.maxPackages ≤ 2 →
        pushItem ti ah it = doublePolicy ti ah ⟨it.val, it.retries + 1⟩) := by
  have hsel' : ah.useBasicPolicy = decide (2 < ti.maxPackages) := hsel
  refine ⟨?_, ?_, ?_⟩
  · rw [hsel']
    simp
  · intro h
    have : ah.useBasicPolicy = true := by rw [hsel']; simpa using h
    rw [pushItem, if_pos this]
  · intro h
    have : ah.useBasicPolicy = false := by
      rw [hsel']
      simpa using Nat.not_lt.2 h
    rw [pushItem, this]
    simp

/-- Witness for C5 (amended) on a 2-package topology. -/
theorem abortHandler_policy_selection_witness :
    ((mkAbortHandler ⟨3, 1, 2, 2, fun p => p⟩ : AbortHandler Nat).useBasicPolicy = true
      ↔ 2 < (⟨3, 1, 2, 2, fun p => p⟩ : ThreadInfo).maxPackages)
    ∧ (2 < (⟨3, 1, 2, 2, fun p => p⟩ : ThreadInfo).maxPackages →
        pushItem ⟨3, 1, 2, 2, fun p => p⟩
            (mkAbortHandler ⟨3, 1, 2, 2, fun p => p⟩) (⟨7, 1⟩ : Item Nat)
          = basicPolicy ⟨3, 1, 2, 2, fun p => p⟩
            (mkAbortHandler ⟨3, 1, 2, 2, fun p => p⟩) ⟨7, 1 + 1⟩)
    ∧ ((⟨3, 1, 2, 2, fun p => p⟩ : ThreadInfo).maxPackages ≤ 2 →
        pushItem ⟨3, 1, 2, 2, fun p => p⟩
            (mkAbortHandler ⟨3, 1, 2, 2, fun p => p⟩) (⟨7, 1⟩ : Item Nat)
          = doublePolicy ⟨3, 1, 2, 2, fun p => p⟩
            (mkAbortHandler ⟨3, 1, 2, 2, fun p => p⟩) ⟨7, 1 + 1⟩) :=
  abortHandler_policy_selection ⟨3, 1, 2, 2, fun p => p⟩
    (mkAbortHandler ⟨3, 1, 2, 2, fun p => p⟩) (⟨7, 1⟩ : Item Nat) rfl

/-- Claim C8: every re-push of an already-aborted item through
`AbortHandler::push(const Item&)` produces a new record whose `retries`
equals the old value plus one; any element of any queue after the push is
either an old element or that record, so `retries` never decreases across
an item's lifetime. -/
theorem pushItem_retries_monotone (ti : ThreadInfo) (ah : AbortHandler α)
    (it : Item α) (j : Nat) (x : Item α)
    (hx : x ∈ (pushItem ti ah it).queues j) :
    x ∈ ah.queues j
    ∨ (x.val = it.val ∧ x.retries = it.retries + 1 ∧ it.retries ≤ x.retries) := by
  obtain ⟨d, hd⟩ := pushItem_eq_pushTo ti ah it
  rw [hd] at hx
  rcases mem_pushTo ah d j _ x hx with h | h
  · exact Or.inl h
  · subst h
    refine Or.inr ⟨rfl, rfl, ?_⟩
    show it.retries ≤ it.retries + 1
    omega

/-- Witness for C8: the record produced by a concrete re-push has
`retries` 2 = 1 + 1. -/
theorem pushItem_retries_monotone_witness :
    (⟨5, 2⟩ : Item Nat) ∈ (mkAbortHandler ⟨3, 1, 2, 3, fun p => p⟩
        : AbortHandler Nat).queues 0
    ∨ ((⟨5, 2⟩ : Item Nat).val = (⟨5, 1⟩ : Item Nat).val
        ∧ (⟨5, 2⟩ : Item Nat).retries = (⟨5, 1⟩ : Item Nat).retries + 1
        ∧ (⟨5, 1⟩ : Item Nat).retries ≤ (⟨5, 2⟩ : Item Nat).retries) :=
  pushItem_retries_monotone ⟨3, 1, 2, 3, fun p => p⟩
    (mkAbortHandler ⟨3, 1, 2, 3, fun p => p⟩) ⟨5, 1⟩ 0 ⟨5, 2⟩ (by decide)

/-- Claim C9: for every value whose iteration aborts for the first time,
`AbortHandler::push(const value_type&)` enqueues it on the aborting
thread's own local queue with `retries = 1`, regardless of which
escalation policy was selected at construction; no other queue changes. -/
theorem pushValue_first_abort_local (ti : ThreadInfo)
    (q : Nat → List (Item α)) (b : Bool) (v : α) :
    (pushValue ti ⟨q, b⟩ v).queues ti.tid = q ti.tid ++ [⟨v, 1⟩]
    ∧ (∀ j, j ≠ ti.tid → (pushValue ti ⟨q, b⟩ v).queues j = q j)
    ∧ (pushValue ti ⟨q, b⟩ v).useBasicPolicy = b := by
  refine ⟨?_, ?_, rfl⟩
  · simp [pushValue, AbortHandler.pushTo]
  · intro j hj
    simp [pushValue, AbortHandler.pushTo, hj]

/-- Witness for C9 on a concrete 3-package topology with both policy
flags exercised through the `b` parameter. -/
theorem pushValue_first_abort_local_witness :
    (pushValue ⟨3, 1, 2, 3, fun p => p⟩
        (⟨fun _ => [], true⟩ : AbortHandler Nat) 9).queues 3 = [] ++ [⟨9, 1⟩]
    ∧ (∀ j, j ≠ (⟨3, 1, 2, 3, fun p => p⟩ : ThreadInfo).tid →
        (pushValue ⟨3, 1, 2, 3, fun p => p⟩
          (⟨fun _ => [], true⟩ : AbortHandler Nat) 9).queues j = [])
    ∧ (pushValue ⟨3, 1, 2, 3, fun p => p⟩
        (⟨fun _ => [], true⟩ : AbortHandler Nat) 9).useBasicPolicy = true :=
  pushValue_first_abort_local ⟨3, 1, 2, 3, fun p => p⟩ (fun _ => []) true 9

/-- Counterexample to claim C6 as stated: in the abort/break inner loop a
leader thread without break enabled (couldAbort true, needsBreak false,
isLeader true) runs `runQueue` with limit 64, where the claim requires
limit 0 for every thread that is not a leader-with-break. -/
theorem runQueue_limit_cex :
    innerLoopOf true false true = InnerLoop.catching 64 true
    ∧ ¬ innerLoopOf true false true = InnerLoop.catching 0 true := by
  decide

/-- Claim C6 (amended): in the abort/break inner loop, `runQueue` on the
shared worklist is invoked with a pop limit of 64 exactly when break is
enabled or the thread is the leader (`__NUM = (needsBreak || isLeader) ?
64 : 0`), and with no limit (limit 0) otherwise. -/
theorem runQueue_limit_choice (ca nb l : Bool) :
    (innerLoopOf ca nb l = InnerLoop.catching 64 ca
      ↔ (ca || nb) = true ∧ (nb || l) = true)
    ∧ (innerLoopOf ca nb l = InnerLoop.catching 0 ca
      ↔ (ca || nb) = true ∧ (nb || l) = false)
    ∧ (innerLoopOf ca nb l = InnerLoop.simple ↔ (ca || nb) = false) := by
  cases ca <;> cases nb <;> cases l <;> decide

theorem evFlushes_append (l1 l2 : List (Ev α)) :
    evFlushes (l1 ++ l2) = evFlushes l1 ++ evFlushes l2 := by
  induction l1 with
  | nil => simp [evFlushes]
  | cons x rest ih => cases x <;> simp [evFlushes, ih]

theorem evFlushes_pia (c : Bool) :
    evFlushes (α := α) (if c = true then [Ev.allocReset] else []) = [] := by
  cases c <;> simp [evFlushes]

theorem doProcess_simple (fl : Flags) (op : α → β × List α) (v : α)
    (tld : TLD α) (hP : fl.needsPush = true) (hpb : tld.pushBuffer = []) :
    (doProcess fl (fun w => ((op w).1, (op w).2, false)) v tld).confl = false
    ∧ (doProcess fl (fun w => ((op w).1, (op w).2, false)) v tld).eff = (op v).1
    ∧ (doProcess fl (fun w => ((op w).1, (op w).2, false)) v tld).tld.pushBuffer = []
    ∧ evFlushes (doProcess fl (fun w => ((op w).1, (op w).2, false)) v tld).evs
        = (op v).2 := by
  by_cases hemp : (op v).2 = []
  · refine ⟨?_, ?_, ?_, ?_⟩ <;>
      · simp [doProcess, commitIteration, hP, hpb, hemp, evFlushes_append,
          evFlushes, evFlushes_pia]
        try split <;> simp [evFlushes, evFlushes_append, evFlushes_pia]
  · have hcond : (fl.needsPush && !(tld.pushBuffer ++ (op v).2).isEmpty) = true := by
      simp [hP, hpb, hemp]
    refine ⟨?_, ?_, ?_, ?_⟩ <;>
      · simp [doProcess, commitIteration, hcond, hpb, evFlushes_append,
          evFlushes, evFlushes_pia]
        try split <;> simp [evFlushes, evFlushes_append, evFlushes_pia]

theorem runQueueSimple_refines (fl : Flags) (op : α → β × List α)
    (hP : fl.needsPush = true) :
    ∀ (fuel : Nat) (wl : List α) (tld : TLD α), tld.pushBuffer = [] →
      Option.map Prod.snd (runQueueSimple fl op fuel wl tld)
        = seqLoopSpec op fuel wl := by
  intro fuel
  induction fuel with
  | zero =>
    intro wl tld h
    cases wl <;> simp [runQueueSimple, seqLoopSpec]
  | succ n ih =>
    intro wl tld h
    cases wl with
    | nil => simp [runQueueSimple, seqLoopSpec]
    | cons v rest =>
      obtain ⟨hc, he, hb, hf⟩ := doProcess_simple fl op v tld hP h
      simp only [runQueueSimple, seqLoopSpec]
      rw [hf, he]
      have hrec := ih (rest ++ (op v).2)
        (doProcess fl (fun w => ((op w).1, (op w).2, false)) v tld).tld hb
      cases hcall : runQueueSimple fl op n (rest ++ (op v).2)
          (doProcess fl (fun w => ((op w).1, (op w).2, false)) v tld).tld with
      | none =>
        rw [hcall] at hrec
        rw [← hrec]
        rfl
      | some p =>
        obtain ⟨ptld, pes⟩ := p
        rw [hcall] at hrec
        rw [← hrec]
        rfl

/-- Counterexample to claim C7 as stated: with a single active thread but
`needsBreak` set, the executor does not take the no-abort specialization
running `runQueueSimple`: the inner-loop dispatch of `go()` still selects
the catching `runQueue` loop (with limit 64), because the branch condition
is `couldAbort || needsBreak`. -/
theorem singleThread_simple_cex :
    couldAbort true 1 = false
    ∧ innerLoopOf (couldAbort true 1) true false = InnerLoop.catching 64 false
    ∧ ¬ innerLoopOf (couldAbort true 1) true false = InnerLoop.simple := by
  decide

/-- Claim C7 (amended): `couldAbort` equals
`needsAborts && activeThreads > 1`, so it is false whenever
`activeThreads = 1`; when additionally `needsBreak` is false the executor
takes the no-abort specialization running `runQueueSimple` (no conflict
handling, no try/catch), and the committed effects of this run equal those
of a sequential loop over the range applied in pop order. -/
theorem singleThread_refines_seq {α β : Type} :
    (∀ (na : Bool) (t : Nat), couldAbort na t = (na && decide (1 < t)))
    ∧ (∀ na : Bool, couldAbort na 1 = false)
    ∧ (∀ na l : Bool, innerLoopOf (couldAbort na 1) false l = InnerLoop.simple)
    ∧ (∀ (fl : Flags) (op : α → β × List α) (fuel : Nat) (wl : List α)
        (tld : TLD α), fl.needsPush = true → tld.pushBuffer = [] →
        Option.map Prod.snd (runQueueSimple fl op fuel wl tld)
          = seqLoopSpec op fuel wl) := by
  refine ⟨fun na t => rfl, ?_, ?_, ?_⟩
  · intro na
    cases na <;> rfl
  · intro na l
    cases na <;> rfl
  · intro fl op fuel wl tld hP hpb
    exact runQueueSimple_refines fl op hP fuel wl tld hpb

/-- Witness for C7 (amended): a concrete pushing operator run
single-threaded matches the sequential loop. -/
theorem singleThread_refines_seq_witness :
    Option.map Prod.snd
        (runQueueSimple ⟨true, true, false, false, false⟩
          (fun v : Nat => (v * 10, if v = 1 then [5] else [])) 4 [1, 2]
          (⟨0, 0, 0, []⟩ : TLD Nat))
      = seqLoopSpec (fun v : Nat => (v * 10, if v = 1 then [5] else [])) 4 [1, 2] :=
  (@singleThread_refines_seq Nat Nat).2.2.2 ⟨true, true, false, false, false⟩
    (fun v : Nat => (v * 10, if v = 1 then [5] else [])) 4 [1, 2]
    (⟨0, 0, 0, []⟩ : TLD Nat) rfl rfl

end GaloisFE
